import Mathlib

/-!
# url-checker (`C implementation/ex3.c`): bounded queue, worker, reader, collector

A shallow embedding of `ex3.c`.

* C `int` values are modelled by `Int`; the C remainder `%` is `Int.tmod`
  (truncated division).  Signed overflow is undefined in C, so the model describes
  the executions in which no counter leaves the `int` range.
* The block returned by `malloc` has indeterminate content.  `queue_init` therefore
  takes the content of the fresh block as a parameter `mem` (cell `i` holds `mem i`).
* `pthread_cond_wait` is modelled, from the point of view of the calling thread, by
  a function `wait`: `wait q = some q1` means that the wait returns and the queue is
  in state `q1` when the caller holds the mutex again; `wait q = none` means that the
  wait never returns.
* A pointer stored in the URL queue is `none` for `NULL` and `some url` otherwise.
-/

namespace UrlChecker

/-! ## Results of calls -/

/-- Result of a call that may block or touch memory outside an allocated block. -/
inductive Outcome (β : Type) where
  /-- the call returned -/
  | done (b : β)
  /-- the call waits on a condition variable for ever -/
  | blocked
  /-- an array cell outside the allocated block is accessed, or a remainder by
  zero is taken -/
  | fault
deriving DecidableEq, Repr

/-! ## The queue (`ex3.c` lines 34-151) -/

/-- The `Queue` struct: `array` is the allocated block, one list element per cell. -/
structure Queue (α : Type) where
  array : List α
  size : Int
  capacity : Int
  head : Int
  tail : Int
deriving DecidableEq, Repr

/-- `queue_init` (lines 45-63): a block of `capacity` cells with content `mem`,
`size = head = tail = 0`. -/
def queue_init {α : Type} (mem : Nat → α) (capacity : Int) : Queue α :=
  { array := (List.range capacity.toNat).map mem
    capacity := capacity
    size := 0
    head := 0
    tail := 0 }

/-- Lines 85-91 of `enqueue`: a single `if`; when the queue is full the thread waits
once on `cv_empty` and goes on in whatever state the queue has when the wait
returns. -/
def enqueue_wait {α : Type} (wait : Queue α → Option (Queue α)) (q : Queue α) :
    Outcome (Queue α) :=
  if q.size = q.capacity then
    match wait q with
    | some q1 => .done q1
    | none => .blocked
  else .done q

/-- Lines 93-97 of `enqueue`, the critical section:
`array[tail] = data; tail = (tail + 1) % capacity; size++`. -/
def enqueue_critical {α : Type} (q : Queue α) (data : α) : Outcome (Queue α) :=
  if 0 ≤ q.tail ∧ q.tail < q.array.length ∧ q.capacity ≠ 0 then
    .done { q with
      array := q.array.set q.tail.toNat data
      tail := (q.tail + 1).tmod q.capacity
      size := q.size + 1 }
  else .fault

/-- `enqueue` (lines 65-107) as seen by the calling thread. -/
def enqueue {α : Type} (wait : Queue α → Option (Queue α)) (q : Queue α) (data : α) :
    Outcome (Queue α) :=
  match enqueue_wait wait q with
  | .done q1 => enqueue_critical q1 data
  | .blocked => .blocked
  | .fault => .fault

/-- Lines 128-134 of `dequeue`: a single `if`; when the queue is empty the thread
waits once on `cv_full`. -/
def dequeue_wait {α : Type} (wait : Queue α → Option (Queue α)) (q : Queue α) :
    Outcome (Queue α) :=
  if q.size = 0 then
    match wait q with
    | some q1 => .done q1
    | none => .blocked
  else .done q

/-- Lines 136-140 of `dequeue`, the critical section:
`data = array[head]; head = (head + 1) % capacity; size--`. -/
def dequeue_critical {α : Type} (q : Queue α) : Outcome (Queue α × α) :=
  if 0 ≤ q.head ∧ q.capacity ≠ 0 then
    match q.array[q.head.toNat]? with
    | some data =>
      .done ({ q with
        head := (q.head + 1).tmod q.capacity
        size := q.size - 1 }, data)
    | none => .fault
  else .fault

/-- `dequeue` (lines 109-151) as seen by the calling thread. -/
def dequeue {α : Type} (wait : Queue α → Option (Queue α)) (q : Queue α) :
    Outcome (Queue α × α) :=
  match dequeue_wait wait q with
  | .done q1 => dequeue_critical q1
  | .blocked => .blocked
  | .fault => .fault

/-! ## Sequences of queue operations -/

/-- One call on a queue. -/
inductive Op (α : Type) where
  | enq (data : α)
  | deq
deriving DecidableEq, Repr

/-- Runs the calls one after the other on the code; the second component collects
the values returned by the `dequeue` calls, in call order. -/
def runOps {α : Type} (wait : Queue α → Option (Queue α)) :
    Queue α → List (Op α) → Outcome (Queue α × List α)
  | q, [] => .done (q, [])
  | q, .enq data :: ops =>
    match enqueue wait q data with
    | .done q1 => runOps wait q1 ops
    | .blocked => .blocked
    | .fault => .fault
  | q, .deq :: ops =>
    match dequeue wait q with
    | .done (q1, data) =>
      match runOps wait q1 ops with
      | .done (q2, outs) => .done (q2, data :: outs)
      | .blocked => .blocked
      | .fault => .fault
    | .blocked => .blocked
    | .fault => .fault

/-- The sequence respects capacity on the code: every `enqueue` is called in a
state with `size < capacity` and every `dequeue` in a state with `size > 0`
(nothing is asked of what follows a call that does not return). -/
def respects {α : Type} (wait : Queue α → Option (Queue α)) :
    Queue α → List (Op α) → Bool
  | _, [] => true
  | q, .enq data :: ops =>
    decide (q.size < q.capacity) &&
      match enqueue wait q data with
      | .done q1 => respects wait q1 ops
      | _ => true
  | q, .deq :: ops =>
    decide (0 < q.size) &&
      match dequeue wait q with
      | .done (q1, _) => respects wait q1 ops
      | _ => true

/-- The items passed to the `enqueue` calls, in call order. -/
def enqueued {α : Type} : List (Op α) → List α
  | [] => []
  | .enq data :: ops => data :: enqueued ops
  | .deq :: ops => enqueued ops

/-- Number of `dequeue` calls in the sequence. -/
def dequeues {α : Type} : List (Op α) → Nat
  | [] => 0
  | .enq _ :: ops => dequeues ops
  | .deq :: ops => dequeues ops + 1

/-- The items the ring buffer holds, oldest first: the `size` cells from `head`
on, indices taken modulo `capacity`. -/
def contents {α : Type} (q : Queue α) : List α :=
  (List.range q.size.toNat).filterMap
    (fun (i : Nat) => q.array[((q.head + (i : Int)) % q.capacity).toNat]?)

/-- The abstract queue of the specification: a list with append-at-back and
remove-at-front.  Returns the final list and the removed items, `none` when an
item is removed from the empty list. -/
def specRun {α : Type} : List α → List (Op α) → Option (List α × List α)
  | l, [] => some (l, [])
  | l, .enq data :: ops => specRun (l ++ [data]) ops
  | [], .deq :: _ => none
  | x :: l, .deq :: ops =>
    match specRun l ops with
    | some (l1, outs) => some (l1, x :: outs)
    | none => none

/-- States reachable from `queue_init mem C` by calls that respect capacity. -/
inductive Reachable {α : Type} (wait : Queue α → Option (Queue α)) (mem : Nat → α)
    (C : Int) : Queue α → Prop where
  | init : Reachable wait mem C (queue_init mem C)
  | enq (q q1 : Queue α) (data : α) : Reachable wait mem C q → q.size < q.capacity →
      enqueue wait q data = .done q1 → Reachable wait mem C q1
  | deq (q q1 : Queue α) (data : α) : Reachable wait mem C q → 0 < q.size →
      dequeue wait q = .done (q1, data) → Reachable wait mem C q1

/-! ## Worker (`ex3.c` lines 20-22, 29-31, 216-257) -/

/-- The `UrlStatus` struct (lines 29-31). -/
structure UrlStatus where
  ok : Int
  error : Int
  unknown : Int
deriving DecidableEq, Repr

/-- `#define URL_OK 0`. -/
def URL_OK : Int := 0

/-- `#define URL_ERROR 1`. -/
def URL_ERROR : Int := 1

/-- `#define URL_UNKNOWN 2`. -/
def URL_UNKNOWN : Int := 2

/-- `#define QUEUE_SIZE 32`. -/
def QUEUE_SIZE : Int := 32

/-- The `switch` of `worker` (lines 239-248) on the value returned by `check_url`. -/
def count_status (results : UrlStatus) (status : Int) : UrlStatus :=
  if status = URL_OK then { results with ok := results.ok + 1 }
  else if status = URL_ERROR then { results with error := results.error + 1 }
  else { results with unknown := results.unknown + 1 }

/-- The loop of `worker` (lines 236-251).  The list holds the values that the
successive `dequeue(url_queue)` calls of this worker return.  Result: the counters
at loop exit, the arguments of the `check_url` calls in order, and the values not
taken.  With no value left the next `dequeue` does not return. -/
def worker_loop {α : Type} (check_url : α → Int) :
    UrlStatus → List (Option α) → Outcome (UrlStatus × List α × List (Option α))
  | _, [] => .blocked
  | results, none :: rest => .done (results, [], rest)
  | results, some url :: rest =>
    match worker_loop check_url (count_status results (check_url url)) rest with
    | .done (r, checked, rest1) => .done (r, url :: checked, rest1)
    | .blocked => .blocked
    | .fault => .fault

/-- What one run of `worker` did. -/
structure WorkerRun (α : Type) where
  /-- the arguments of its `check_url` calls, in order -/
  checked : List α
  /-- the records it passed to `enqueue(result_queue, _)`, in order -/
  published : List UrlStatus
  /-- the values of the URL queue it did not take -/
  remaining : List (Option α)
deriving DecidableEq, Repr

/-- `worker` (lines 216-257): zeroed counters, the loop, then one
`enqueue(result_queue, results)`. -/
def worker {α : Type} (check_url : α → Int) (items : List (Option α)) :
    Outcome (WorkerRun α) :=
  match worker_loop check_url { ok := 0, error := 0, unknown := 0 } items with
  | .done (r, checked, rest) => .done { checked := checked, published := [r], remaining := rest }
  | .blocked => .blocked
  | .fault => .fault

/-! ## Collector (`ex3.c` lines 314-345) -/

/-- A queue call made by `collector`. -/
inductive CollectorCall (α : Type) where
  /-- `enqueue(url_queue, item)` -/
  | put_url (item : Option α)
  /-- `dequeue(result_queue)` returning a pointer to `r` -/
  | take_result (r : UrlStatus)
deriving DecidableEq, Repr

/-- The first loop (lines 328-330), `n` iterations left. -/
def collector_puts {α : Type} : Nat → List (CollectorCall α)
  | 0 => []
  | n + 1 => .put_url none :: collector_puts n

/-- Lines 335-337: the three `+=`. -/
def add_status (results thread_results : UrlStatus) : UrlStatus :=
  { ok := results.ok + thread_results.ok
    error := results.error + thread_results.error
    unknown := results.unknown + thread_results.unknown }

/-- The second loop (lines 333-338), `n` iterations left; the list holds the records
that the successive `dequeue(result_queue)` calls return. -/
def collector_takes {α : Type} :
    Nat → UrlStatus → List UrlStatus → Outcome (UrlStatus × List (CollectorCall α) × List UrlStatus)
  | 0, results, arriving => .done (results, [], arriving)
  | _ + 1, _, [] => .blocked
  | n + 1, results, r :: arriving =>
    match collector_takes n (add_status results r) arriving with
    | .done (total, calls, rest) => .done (total, .take_result r :: calls, rest)
    | .blocked => .blocked
    | .fault => .fault

/-- What one run of `collector` did. -/
structure CollectorRun (α : Type) where
  /-- its queue calls, in program order -/
  calls : List (CollectorCall α)
  /-- the three numbers printed by `printf` (lines 340-343) -/
  printed : UrlStatus
  /-- the records of the result queue it did not take -/
  remaining : List UrlStatus
deriving DecidableEq, Repr

/-- `collector` (lines 314-345); both loops run `number_of_threads` times (not at
all when it is not positive). -/
def collector {α : Type} (number_of_threads : Int) (arriving : List UrlStatus) :
    Outcome (CollectorRun α) :=
  match collector_takes number_of_threads.toNat { ok := 0, error := 0, unknown := 0 } arriving with
  | .done (total, calls, rest) =>
    .done { calls := collector_puts number_of_threads.toNat ++ calls
            printed := total
            remaining := rest }
  | .blocked => .blocked
  | .fault => .fault

/-- Field-wise sum of a list of records. -/
def sum_status (rs : List UrlStatus) : UrlStatus :=
  { ok := (rs.map (fun r => r.ok)).sum
    error := (rs.map (fun r => r.error)).sum
    unknown := (rs.map (fun r => r.unknown)).sum }

/-- The three counts over a list of URLs: `ok` the URLs checked `URL_OK`, `error`
those checked `URL_ERROR`, `unknown` all others. -/
def tally {α : Type} (check_url : α → Int) (urls : List α) : UrlStatus :=
  { ok := urls.countP (fun u => decide (check_url u = URL_OK))
    error := urls.countP (fun u => decide (check_url u = URL_ERROR))
    unknown := urls.countP (fun u => decide (check_url u ≠ URL_OK ∧ check_url u ≠ URL_ERROR)) }

/-! ## File reader (`ex3.c` lines 264-306) -/

/-- The threads created by `parallel_checker`. -/
inductive Tid where
  | worker (i : Nat)
  | reader
  | collector
deriving DecidableEq, Repr

/-- Where a thread stands with respect to `pthread_cond_wait`. -/
inductive Phase where
  /-- outside `pthread_cond_wait`; its next queue call starts at `pthread_mutex_lock` -/
  | running
  /-- blocked inside `pthread_cond_wait` -/
  | waiting
  /-- unblocked by `pthread_cond_signal`, has yet to re-acquire the mutex and return
  from `pthread_cond_wait` -/
  | woken
deriving DecidableEq, Repr

/-- `pthread_cond_signal` on a condition variable, given the threads blocked on it,
longest-waiting first: the first one, if any, is unblocked. -/
def cond_signal : List Tid → Option Tid × List Tid
  | [] => (none, [])
  | t :: ts => (some t, ts)

/-- One step of a thread at a call `enqueue(queue, data)`: from `running`, the code of
`enqueue` up to its return or up to `pthread_cond_wait` (result `blocked`); from
`woken`, the code after `pthread_cond_wait` (lines 93-107), which does not test
`size` again; `none` when the thread is blocked. -/
def enqueue_step {β : Type} (ph : Phase) (q : Queue β) (data : β) : Option (Outcome (Queue β)) :=
  match ph with
  | .running => some (enqueue (fun _ => none) q data)
  | .waiting => none
  | .woken => some (enqueue_critical q data)

/-- One step of a thread at a call `dequeue(queue)`, as `enqueue_step`. -/
def dequeue_step {β : Type} (ph : Phase) (q : Queue β) : Option (Outcome (Queue β × β)) :=
  match ph with
  | .running => some (dequeue (fun _ => none) q)
  | .waiting => none
  | .woken => some (dequeue_critical q)

/-- Program points of `worker`. -/
inductive WorkerPc where
  /-- at `dequeue(worker_args->url_queue)` (line 236 or 250) -/
  | dequeue_url
  /-- at `enqueue(worker_args->result_queue, results)` (line 254) -/
  | enqueue_results
  /-- after `return NULL` -/
  | returned
deriving DecidableEq, Repr

/-- A worker thread. -/
structure WorkerState where
  pc : WorkerPc
  phase : Phase
  results : UrlStatus
deriving DecidableEq, Repr

/-- The `file_reader` thread: `lines` are the buffers that its remaining `getline`
iterations produce, first the one it is enqueuing. -/
structure ReaderState (α : Type) where
  lines : List α
  phase : Phase
  returned : Bool
deriving DecidableEq, Repr

/-- Program points of `collector`. -/
inductive CollectorPc where
  /-- in the first loop (lines 328-330) -/
  | enqueue_sentinels
  /-- in the second loop (lines 333-338) -/
  | dequeue_results
  /-- after `printf` and `return NULL` -/
  | returned
deriving DecidableEq, Repr

/-- The `collector` thread. -/
structure CollectorState where
  pc : CollectorPc
  phase : Phase
  i : Int
  results : UrlStatus
deriving DecidableEq, Repr

/-- The two queues, the threads blocked on their condition variables
(longest-waiting first), the threads, and what has been printed. -/
structure System (α : Type) where
  url_queue : Queue (Option α)
  url_cv_empty : List Tid
  url_cv_full : List Tid
  result_queue : Queue UrlStatus
  result_cv_empty : List Tid
  result_cv_full : List Tid
  workers : List WorkerState
  reader : ReaderState α
  collector : CollectorState
  number_of_threads : Int
  printed : Option UrlStatus
deriving DecidableEq, Repr

/-- The state `parallel_checker` sets up (lines 374-394): two queues of `QUEUE_SIZE`
cells, `number_of_threads` workers about to call `dequeue`, the file reader about to
read its first line; the collector is created once the file reader has returned. -/
def parallel_checker {α : Type} (url_mem : Nat → Option α) (result_mem : Nat → UrlStatus)
    (lines : List α) (number_of_threads : Int) : System α :=
  { url_queue := queue_init url_mem QUEUE_SIZE
    url_cv_empty := []
    url_cv_full := []
    result_queue := queue_init result_mem QUEUE_SIZE
    result_cv_empty := []
    result_cv_full := []
    workers := List.replicate number_of_threads.toNat
      { pc := .dequeue_url, phase := .running, results := { ok := 0, error := 0, unknown := 0 } }
    reader := { lines := lines, phase := .running, returned := false }
    collector := { pc := .enqueue_sentinels, phase := .running, i := 0,
                   results := { ok := 0, error := 0, unknown := 0 } }
    number_of_threads := number_of_threads
    printed := none }

/-- The thread unblocked by a `pthread_cond_signal` leaves `pthread_cond_wait`'s
blocked state. -/
def wake {α : Type} (s : System α) : Option Tid → System α
  | none => s
  | some (.worker i) =>
    match s.workers[i]? with
    | some w => { s with workers := s.workers.set i { w with phase := .woken } }
    | none => s
  | some .reader => { s with reader := { s.reader with phase := .woken } }
  | some .collector => { s with collector := { s.collector with phase := .woken } }

/-- One step of worker `i` (lines 236-256). -/
def worker_step {α : Type} (check_url : α → Int) (s : System α) (i : Nat) : Option (System α) :=
  match s.workers[i]? with
  | none => none
  | some w =>
    match w.pc with
    | .returned => none
    | .dequeue_url =>
      match dequeue_step w.phase s.url_queue with
      | none => none
      | some .fault => none
      | some .blocked =>
        some { s with
          workers := s.workers.set i { w with phase := .waiting }
          url_cv_full := s.url_cv_full ++ [.worker i] }
      | some (.done (q1, url)) =>
        let w1 : WorkerState :=
          match url with
          | none => { w with pc := .enqueue_results, phase := .running }
          | some u =>
            { w with phase := .running, results := count_status w.results (check_url u) }
        some (wake { s with
          url_queue := q1
          workers := s.workers.set i w1
          url_cv_empty := (cond_signal s.url_cv_empty).2 } (cond_signal s.url_cv_empty).1)
    | .enqueue_results =>
      match enqueue_step w.phase s.result_queue w.results with
      | none => none
      | some .fault => none
      | some .blocked =>
        some { s with
          workers := s.workers.set i { w with phase := .waiting }
          result_cv_empty := s.result_cv_empty ++ [.worker i] }
      | some (.done q1) =>
        some (wake { s with
          result_queue := q1
          workers := s.workers.set i { w with pc := .returned, phase := .running }
          result_cv_full := (cond_signal s.result_cv_full).2 } (cond_signal s.result_cv_full).1)

/-- One step of the file reader (lines 286-305): at end of file it returns, else it
enqueues the buffer of the next line. -/
def reader_step {α : Type} (s : System α) : Option (System α) :=
  if s.reader.returned then none
  else
    match s.reader.lines with
    | [] => some { s with reader := { s.reader with returned := true } }
    | url :: rest =>
      match enqueue_step s.reader.phase s.url_queue (some url) with
      | none => none
      | some .fault => none
      | some .blocked =>
        some { s with
          reader := { s.reader with phase := .waiting }
          url_cv_empty := s.url_cv_empty ++ [.reader] }
      | some (.done q1) =>
        some (wake { s with
          url_queue := q1
          reader := { s.reader with lines := rest, phase := .running }
          url_cv_full := (cond_signal s.url_cv_full).2 } (cond_signal s.url_cv_full).1)

/-- One step of the collector (lines 327-344); `parallel_checker` creates it after
`pthread_join(file_reader_thread)`. -/
def collector_step {α : Type} (s : System α) : Option (System α) :=
  if s.reader.returned = false then none
  else
    match s.collector.pc with
    | .returned => none
    | .enqueue_sentinels =>
      if s.collector.i < s.number_of_threads then
        match enqueue_step s.collector.phase s.url_queue none with
        | none => none
        | some .fault => none
        | some .blocked =>
          some { s with
            collector := { s.collector with phase := .waiting }
            url_cv_empty := s.url_cv_empty ++ [.collector] }
        | some (.done q1) =>
          some (wake { s with
            url_queue := q1
            collector := { s.collector with phase := .running, i := s.collector.i + 1 }
            url_cv_full := (cond_signal s.url_cv_full).2 } (cond_signal s.url_cv_full).1)
      else some { s with collector := { s.collector with pc := .dequeue_results, i := 0 } }
    | .dequeue_results =>
      if s.collector.i < s.number_of_threads then
        match dequeue_step s.collector.phase s.result_queue with
        | none => none
        | some .fault => none
        | some .blocked =>
          some { s with
            collector := { s.collector with phase := .waiting }
            result_cv_full := s.result_cv_full ++ [.collector] }
        | some (.done (q1, thread_results)) =>
          some (wake { s with
            result_queue := q1
            collector := { s.collector with
              phase := .running
              i := s.collector.i + 1
              results := add_status s.collector.results thread_results }
            result_cv_empty := (cond_signal s.result_cv_empty).2 }
            (cond_signal s.result_cv_empty).1)
      else
        some { s with
          printed := some s.collector.results
          collector := { s.collector with pc := .returned } }

/-- One step of thread `t`; `none` when `t` cannot run (blocked, returned, or not
created). -/
def step {α : Type} (check_url : α → Int) (s : System α) : Tid → Option (System α)
  | .worker i => worker_step check_url s i
  | .reader => reader_step s
  | .collector => collector_step s

/-- Runs the threads in the order given by the schedule; `none` when the schedule
names a thread that cannot run. -/
def run {α : Type} (check_url : α → Int) : System α → List Tid → Option (System α)
  | s, [] => some s
  | s, t :: ts =>
    match step check_url s t with
    | some s1 => run check_url s1 ts
    | none => none

/-- A schedule for two workers and a file of three lines: worker 0 blocks on the
empty URL queue; the reader enqueues the first URL and signals; worker 1 takes that
URL before worker 0 has re-acquired the mutex; worker 0 then returns from its wait. -/
def stolen_wakeup : List Tid :=
  [.worker 0, .reader, .worker 1, .worker 0]

/-- The schedule `stolen_wakeup` continued to the end of the program: the reader
enqueues the other two URLs and returns, worker 0 publishes, the collector enqueues
the two sentinels, worker 1 takes what the queue gives it and publishes, the
collector takes the two records and prints. -/
def stolen_wakeup_to_end : List Tid :=
  stolen_wakeup ++ [.reader, .reader, .reader, .worker 0, .collector, .collector, .collector,
    .worker 1, .worker 1, .worker 1, .collector, .collector, .collector]

/-- A schedule for two workers and an empty file: worker 0 blocks on the empty URL
queue; the reader returns; the collector enqueues the first sentinel and signals;
worker 1 takes that sentinel before worker 0 has re-acquired the mutex; worker 0 then
returns from its wait. -/
def stolen_sentinel : List Tid :=
  [.worker 0, .reader, .collector, .worker 1, .worker 0]

/-- The schedule `stolen_sentinel` continued until no thread can run: the collector
enqueues the second sentinel, worker 0 calls `dequeue` again, worker 1 publishes,
the collector leaves its first loop and calls `dequeue(result_queue)` twice. -/
def stolen_sentinel_to_end : List Tid :=
  stolen_sentinel ++ [.collector, .worker 0, .worker 1, .collector, .collector, .collector]

/-- A schedule for two workers and a file of three lines without any wait: the reader
enqueues the three URLs and returns, worker 0 takes them, the collector enqueues the
two sentinels, each worker takes one and publishes, the collector takes both records
and prints. -/
def orderly : List Tid :=
  [.reader, .reader, .reader, .reader, .worker 0, .worker 0, .worker 0,
    .collector, .collector, .collector, .worker 0, .worker 1, .worker 0, .worker 1,
    .collector, .collector, .collector]

/-- A stub checker: URL `0` is `URL_OK`, URL `1` is `URL_ERROR`, URL `2` is
`URL_UNKNOWN`. -/
def stub_checker (url : Nat) : Int := url

/-- No thread of the system can make a step. -/
def no_thread_can_run {α : Type} (check_url : α → Int) (s : System α) : Bool :=
  (List.range s.workers.length).all (fun i => (step check_url s (.worker i)).isNone) &&
    (step check_url s .reader).isNone && (step check_url s .collector).isNone

/-- A sequence of calls that respects capacity 2. -/
def sample_ops : List (Op Nat) := [.enq 5, .enq 6, .deq, .enq 7, .deq, .deq]

/-- The queue of capacity 2 after one `enqueue` of the item 5. -/
def one_item_queue : Queue Nat :=
  { array := [5, 0], size := 1, capacity := 2, head := 0, tail := 1 }

/-! ## Representation -/

/-- The ring buffer `q` of capacity `C` holds exactly the list `l`. -/
def Rep {α : Type} (C : Int) (q : Queue α) (l : List α) : Prop :=
  q.capacity = C ∧ (q.array.length : Int) = C ∧ 0 ≤ q.head ∧ q.head < C ∧
  q.size = l.length ∧ q.size ≤ C ∧ q.tail = (q.head + q.size) % C ∧
  ∀ i : Nat, i < l.length → q.array[((q.head + (i : Int)) % C).toNat]? = l[i]?

/-! ## Theorems: the ring buffer -/

theorem mod_index_ne (C h i s : Int) (his : i < s) (hs : s - i < C) :
    (h + i) % C ≠ (h + s) % C := by
  intro heq
  have h1 : ((h + s) - (h + i)) % C = 0 :=
    Int.emod_eq_emod_iff_emod_sub_eq_zero.mp heq.symm
  have h2 : C ∣ (s - i) := by
    have : (h + s) - (h + i) = s - i := by ring
    rw [this] at h1
    exact Int.dvd_of_emod_eq_zero h1
  have h3 : C ≤ s - i := Int.le_of_dvd (by omega) h2
  omega

theorem Rep_init {α : Type} (mem : Nat → α) (C : Int) (hC : 1 ≤ C) :
    Rep C (queue_init mem C) [] := by
  refine ⟨rfl, ?_, le_refl _, by simp [queue_init]; omega, rfl, by simp [queue_init]; omega,
    by simp [queue_init], ?_⟩
  · simp [queue_init]; omega
  · intro i hi; exact absurd hi (by simp)

theorem Rep_enqueue {α : Type} (wait : Queue α → Option (Queue α)) (C : Int) (hC : 1 ≤ C)
    (q : Queue α) (l : List α) (data : α) (hR : Rep C q l) (hlt : q.size < q.capacity) :
    ∃ q1, enqueue wait q data = .done q1 ∧ Rep C q1 (l ++ [data]) := by
  obtain ⟨hcap, hlen, hh0, hhC, hsz, hszC, htail, hget⟩ := hR
  have ht0 : 0 ≤ q.tail := by rw [htail]; exact Int.emod_nonneg _ (by omega)
  have htC : q.tail < C := by rw [htail]; exact Int.emod_lt_of_pos _ (by omega)
  have hne : q.size ≠ q.capacity := by omega
  have hguard : 0 ≤ q.tail ∧ q.tail < (q.array.length : Int) ∧ q.capacity ≠ 0 := by
    refine ⟨ht0, by omega, by omega⟩
  refine ⟨{ q with array := q.array.set q.tail.toNat data,
                   tail := (q.tail + 1).tmod q.capacity, size := q.size + 1 },
    by simp only [enqueue, enqueue_wait, if_neg hne, enqueue_critical, if_pos hguard], ?_⟩
  refine ⟨hcap, ?_, hh0, hhC, ?_, ?_, ?_, ?_⟩
  · simpa using hlen
  · simp [hsz]
  · show q.size + 1 ≤ C
    omega
  · show (q.tail + 1).tmod q.capacity = (q.head + (q.size + 1)) % C
    rw [hcap, Int.tmod_eq_emod (by omega) (by omega), htail, Int.emod_add_emod]
    congr 1; ring
  · intro i hi
    show (q.array.set q.tail.toNat data)[((q.head + (i : Int)) % C).toNat]? = (l ++ [data])[i]?
    have hi0 : 0 ≤ (q.head + (i : Int)) % C := Int.emod_nonneg _ (by omega)
    rcases Nat.lt_or_ge i l.length with hlt2 | hge
    · have hneq : (q.head + (i : Int)) % C ≠ q.tail := by
        rw [htail]
        exact mod_index_ne C q.head i q.size (by omega) (by omega)
      have hneq2 : q.tail.toNat ≠ ((q.head + (i : Int)) % C).toNat := by
        intro h; apply hneq; omega
      rw [List.getElem?_set_ne hneq2, hget i hlt2, List.getElem?_append_left hlt2]
    · have hil : i = l.length := by
        simp at hi; omega
      have heq : ((q.head + (i : Int)) % C).toNat = q.tail.toNat := by
        rw [htail, hil, hsz]
      rw [heq, List.getElem?_set_self (by omega), hil]
      simp

theorem Rep_dequeue {α : Type} (wait : Queue α → Option (Queue α)) (C : Int) (hC : 1 ≤ C)
    (q : Queue α) (l : List α) (hR : Rep C q l) (hpos : 0 < q.size) :
    ∃ q1 x l1, l = x :: l1 ∧ dequeue wait q = .done (q1, x) ∧ Rep C q1 l1 := by
  obtain ⟨hcap, hlen, hh0, hhC, hsz, hszC, htail, hget⟩ := hR
  cases l with
  | nil => simp at hsz; omega
  | cons x l1 =>
    have hne : q.size ≠ 0 := by omega
    have hguard : 0 ≤ q.head ∧ q.capacity ≠ 0 := ⟨hh0, by omega⟩
    have hx : q.array[q.head.toNat]? = some x := by
      have := hget 0 (by simp)
      simpa [Int.emod_eq_of_lt hh0 hhC] using this
    refine ⟨{ q with head := (q.head + 1).tmod q.capacity, size := q.size - 1 }, x, l1, rfl,
      by simp only [dequeue, dequeue_wait, if_neg hne, dequeue_critical, if_pos hguard, hx], ?_⟩
    have hhead : (q.head + 1).tmod q.capacity = (q.head + 1) % C := by
      rw [hcap, Int.tmod_eq_emod (by omega) (by omega)]
    refine ⟨hcap, hlen, ?_, ?_, ?_, ?_, ?_, ?_⟩
    · show 0 ≤ (q.head + 1).tmod q.capacity
      rw [hhead]; exact Int.emod_nonneg _ (by omega)
    · show (q.head + 1).tmod q.capacity < C
      rw [hhead]; exact Int.emod_lt_of_pos _ (by omega)
    · show q.size - 1 = (l1.length : Int)
      simp at hsz; omega
    · show q.size - 1 ≤ C
      omega
    · show q.tail = ((q.head + 1).tmod q.capacity + (q.size - 1)) % C
      rw [hhead, Int.emod_add_emod, htail]
      congr 1; ring
    · intro i hi
      show q.array[(((q.head + 1).tmod q.capacity + (i : Int)) % C).toNat]? = l1[i]?
      rw [hhead, Int.emod_add_emod]
      have := hget (i + 1) (by simp; omega)
      have h2 : q.head + 1 + (i : Int) = q.head + ((i + 1 : Nat) : Int) := by push_cast; ring
      rw [h2, this]
      simp

theorem filterMap_range_eq {α : Type} (l : List α) (f : Nat → Option α)
    (h : ∀ i, i < l.length → f i = l[i]?) : (List.range l.length).filterMap f = l := by
  induction l using List.reverseRecOn with
  | nil => rfl
  | append_singleton l1 a ih =>
    have h1 : ∀ i, i < l1.length → f i = l1[i]? := by
      intro i hi
      rw [h i (by simp; omega), List.getElem?_append_left hi]
    have h2 : f l1.length = some a := by
      rw [h l1.length (by simp)]; simp
    rw [List.length_append, List.length_singleton, List.range_succ, List.filterMap_append,
      ih h1]
    simp [h2]

theorem contents_of_Rep {α : Type} (C : Int) (q : Queue α) (l : List α) (hR : Rep C q l) :
    contents q = l := by
  obtain ⟨hcap, -, -, -, hsz, -, -, hget⟩ := hR
  unfold contents
  rw [hsz, hcap, Int.toNat_ofNat]
  exact filterMap_range_eq l _ hget

theorem Reachable_Rep {α : Type} (wait : Queue α → Option (Queue α)) (mem : Nat → α)
    (C : Int) (hC : 1 ≤ C) (q : Queue α) (h : Reachable wait mem C q) : ∃ l, Rep C q l := by
  induction h with
  | init => exact ⟨[], Rep_init mem C hC⟩
  | enq q q1 data _ hlt hrun ih =>
    obtain ⟨l, hR⟩ := ih
    obtain ⟨q2, h2, hR2⟩ := Rep_enqueue wait C hC q l data hR hlt
    rw [h2] at hrun
    cases hrun
    exact ⟨_, hR2⟩
  | deq q q1 data _ hpos hrun ih =>
    obtain ⟨l, hR⟩ := ih
    obtain ⟨q2, x, l1, _, h2, hR2⟩ := Rep_dequeue wait C hC q l hR hpos
    rw [h2] at hrun
    cases hrun
    exact ⟨_, hR2⟩

theorem specRun_enqueued {α : Type} (ops : List (Op α)) :
    ∀ (l l1 outs : List α), specRun l ops = some (l1, outs) →
      l ++ enqueued ops = outs ++ l1 ∧ outs.length = dequeues ops := by
  induction ops with
  | nil =>
    intro l l1 outs h
    have h1 : specRun l [] = some (l, []) := by cases l <;> rfl
    rw [h1] at h
    simp only [Option.some.injEq, Prod.mk.injEq] at h
    obtain ⟨h2, h3⟩ := h
    subst h2 h3
    simp [enqueued, dequeues]
  | cons op ops ih =>
    intro l l1 outs h
    cases op with
    | enq data =>
      simp only [specRun] at h
      have := ih _ _ _ h
      simpa [enqueued, dequeues] using this
    | deq =>
      cases l with
      | nil => simp [specRun] at h
      | cons x l2 =>
        simp only [specRun] at h
        cases hs : specRun l2 ops with
        | none => simp [hs] at h
        | some r =>
          obtain ⟨l3, outs3⟩ := r
          simp only [hs, Option.some.injEq, Prod.mk.injEq] at h
          obtain ⟨h1, h2⟩ := h
          have := ih _ _ _ hs
          subst h1 h2
          simp [enqueued, dequeues, this.1, this.2]

theorem runOps_refines {α : Type} (wait : Queue α → Option (Queue α)) (C : Int) (hC : 1 ≤ C)
    (ops : List (Op α)) :
    ∀ (q : Queue α) (l : List α), Rep C q l → respects wait q ops = true →
      ∃ q1 outs l1, runOps wait q ops = .done (q1, outs) ∧
        specRun l ops = some (l1, outs) ∧ Rep C q1 l1 := by
  induction ops with
  | nil =>
    intro q l hR _
    exact ⟨q, [], l, rfl, by cases l <;> rfl, hR⟩
  | cons op ops ih =>
    intro q l hR hresp
    cases op with
    | enq data =>
      simp only [respects, Bool.and_eq_true, decide_eq_true_eq] at hresp
      obtain ⟨hlt, hrest⟩ := hresp
      obtain ⟨q1, h1, hR1⟩ := Rep_enqueue wait C hC q l data hR hlt
      rw [h1] at hrest
      obtain ⟨q2, outs, l2, h2, h3, hR2⟩ := ih q1 _ hR1 hrest
      exact ⟨q2, outs, l2, by simp only [runOps, h1, h2], by simp only [specRun, h3], hR2⟩
    | deq =>
      simp only [respects, Bool.and_eq_true, decide_eq_true_eq] at hresp
      obtain ⟨hpos, hrest⟩ := hresp
      obtain ⟨q1, x, l1, hl, h1, hR1⟩ := Rep_dequeue wait C hC q l hR hpos
      rw [h1] at hrest
      obtain ⟨q2, outs, l2, h2, h3, hR2⟩ := ih q1 _ hR1 hrest
      subst hl
      exact ⟨q2, x :: outs, l2, by simp only [runOps, h1, h2], by simp only [specRun, h3], hR2⟩

/-- C1: for every capacity `C ≥ 1` and every sequence of `enqueue`/`dequeue` calls on
`queue_init C` that respects capacity, all calls return, the values returned by the
`dequeue` calls are those of the abstract list with append-at-back and
remove-at-front, the ring buffer ends up holding the abstract list, the enqueued
items are exactly the dequeued ones followed by the ones still held, and the `n`-th
`dequeue` returns the item of the `n`-th `enqueue`. -/
theorem fifo_order_exact {α : Type} (C : Int) (hC : 1 ≤ C) (mem : Nat → α)
    (wait : Queue α → Option (Queue α)) (ops : List (Op α))
    (h : respects wait (queue_init mem C) ops = true) :
    ∃ q outs, runOps wait (queue_init mem C) ops = .done (q, outs) ∧
      specRun [] ops = some (contents q, outs) ∧
      enqueued ops = outs ++ contents q ∧
      outs.length = dequeues ops ∧
      ∀ n, n < outs.length → outs[n]? = (enqueued ops)[n]? := by
  obtain ⟨q, outs, l, h1, h2, hR⟩ :=
    runOps_refines wait C hC ops _ [] (Rep_init mem C hC) h
  have hc := contents_of_Rep C q l hR
  have hs := specRun_enqueued ops [] l outs h2
  refine ⟨q, outs, h1, by rw [hc]; exact h2, by rw [hc]; simpa using hs.1, hs.2, ?_⟩
  intro n hn
  have : enqueued ops = outs ++ l := by simpa using hs.1
  rw [this, List.getElem?_append_left hn]

/-- Witness for C1: capacity 2, the calls `enq 5, enq 6, deq, enq 7, deq, deq`. -/
theorem fifo_order_exact_witness :
    (1 : Int) ≤ 2 ∧
    respects (fun _ => none) (queue_init (fun _ => (0 : Nat)) 2) sample_ops = true ∧
    ∃ q outs, runOps (fun _ => none) (queue_init (fun _ => (0 : Nat)) 2) sample_ops =
        .done (q, outs) ∧
      specRun [] sample_ops = some (contents q, outs) ∧
      enqueued sample_ops = outs ++ contents q ∧
      outs.length = dequeues sample_ops ∧
      ∀ n, n < outs.length → outs[n]? = (enqueued sample_ops)[n]? :=
  ⟨by decide, by decide,
    fifo_order_exact 2 (by decide) (fun _ => 0) (fun _ => none) sample_ops (by decide)⟩

/-- C2: in every state reachable from `queue_init C`, `C > 0`, by calls that respect
capacity, `0 ≤ size ≤ capacity`, the capacity is still `C`, and the number of items
held is `size`, hence at most `capacity`. -/
theorem size_invariant {α : Type} (C : Int) (hC : 0 < C) (mem : Nat → α)
    (wait : Queue α → Option (Queue α)) (q : Queue α) (h : Reachable wait mem C q) :
    0 ≤ q.size ∧ q.size ≤ q.capacity ∧ q.capacity = C ∧
      ((contents q).length : Int) = q.size := by
  obtain ⟨l, hR⟩ := Reachable_Rep wait mem C hC q h
  have hc := contents_of_Rep C q l hR
  obtain ⟨hcap, -, -, -, hsz, hszC, -, -⟩ := hR
  refine ⟨by rw [hsz]; exact Int.ofNat_nonneg _, by rw [hcap]; exact hszC, hcap, ?_⟩
  rw [hc, hsz]

/-- Witness for C2: the state after `enq 5` on a queue of capacity 2. -/
theorem size_invariant_witness :
    (0 : Int) < 2 ∧
    Reachable (fun _ => none) (fun _ => (0 : Nat)) 2 one_item_queue ∧
    (0 ≤ one_item_queue.size ∧ one_item_queue.size ≤ one_item_queue.capacity ∧
      one_item_queue.capacity = 2 ∧
      ((contents one_item_queue).length : Int) = one_item_queue.size) :=
  have hr : Reachable (fun _ => none) (fun _ => (0 : Nat)) 2 one_item_queue :=
    Reachable.enq (queue_init (fun _ => 0) 2) _ 5 Reachable.init (by decide) (by decide)
  ⟨by decide, hr, size_invariant 2 (by decide) (fun _ => 0) (fun _ => none) _ hr⟩

/-- C4 (the code at the failing input): capacity 1, one item stored, so the queue is
full.  A second `enqueue` waits once; when the wait returns with the queue still
full, the critical section runs all the same: the stored item is overwritten and
`size` becomes 2.  Likewise a `dequeue` on the empty queue whose wait returns with
the queue still empty returns the content of a cell never written and leaves
`size = -1`. -/
theorem single_wait_runs_critical_section :
    enqueue (fun _ => none) (queue_init (fun _ => (0 : Nat)) 1) 7 =
      .done { array := [7], size := 1, capacity := 1, head := 0, tail := 0 } ∧
    enqueue_wait (fun q => some q)
        ({ array := [7], size := 1, capacity := 1, head := 0, tail := 0 } : Queue Nat) =
      .done { array := [7], size := 1, capacity := 1, head := 0, tail := 0 } ∧
    enqueue (fun q => some q)
        ({ array := [7], size := 1, capacity := 1, head := 0, tail := 0 } : Queue Nat) 8 =
      .done { array := [8], size := 2, capacity := 1, head := 0, tail := 0 } ∧
    dequeue (fun q => some q) (queue_init (fun _ => (0 : Nat)) 1) =
      .done ({ array := [0], size := -1, capacity := 1, head := 0, tail := 0 }, 0) := by
  decide

/-- C10: in every state reachable from `queue_init C`, `C ≥ 1`, by calls that respect
capacity: `0 ≤ head < C`, `0 ≤ tail < C`, `tail = (head + size) mod C`, the block has
`C` cells (so the cells `array[tail]` and `array[head]` accessed by `enqueue` and
`dequeue` exist and the calls return), and the cell written by `enqueue` is none of
the `size` cells from `head` on that hold the items not yet dequeued: these items
are all still held, followed by the new one. -/
theorem ring_buffer_invariant {α : Type} (C : Int) (hC : 1 ≤ C) (mem : Nat → α)
    (wait : Queue α → Option (Queue α)) (q : Queue α) (h : Reachable wait mem C q) :
    (0 ≤ q.head ∧ q.head < C) ∧ (0 ≤ q.tail ∧ q.tail < C) ∧
    q.tail = (q.head + q.size) % C ∧ (q.array.length : Int) = C ∧
    (q.size < q.capacity → ∀ data, ∃ q1, enqueue wait q data = .done q1 ∧
      contents q1 = contents q ++ [data]) ∧
    (0 < q.size → ∃ q1 data, dequeue wait q = .done (q1, data) ∧
      contents q = data :: contents q1) ∧
    (q.size < q.capacity → ∀ i : Int, 0 ≤ i → i < q.size → (q.head + i) % C ≠ q.tail) := by
  obtain ⟨l, hR⟩ := Reachable_Rep wait mem C hC q h
  have hc := contents_of_Rep C q l hR
  obtain ⟨hcap, hlen, hh0, hhC, hsz, hszC, htail, hget⟩ := id hR
  refine ⟨⟨hh0, hhC⟩, ⟨?_, ?_⟩, htail, hlen, ?_, ?_, ?_⟩
  · rw [htail]; exact Int.emod_nonneg _ (by omega)
  · rw [htail]; exact Int.emod_lt_of_pos _ (by omega)
  · intro hlt data
    obtain ⟨q1, h1, hR1⟩ := Rep_enqueue wait C hC q l data hR hlt
    exact ⟨q1, h1, by rw [contents_of_Rep C q1 _ hR1, hc]⟩
  · intro hpos
    obtain ⟨q1, x, l1, hl, h1, hR1⟩ := Rep_dequeue wait C hC q l hR hpos
    exact ⟨q1, x, h1, by rw [contents_of_Rep C q1 _ hR1, hc, hl]⟩
  · intro hlt i hi0 hi
    rw [htail]
    exact mod_index_ne C q.head i q.size hi (by omega)

/-- Witness for C10: the state after `enq 5` on a queue of capacity 2. -/
theorem ring_buffer_invariant_witness :
    (1 : Int) ≤ 2 ∧
    Reachable (fun _ => none) (fun _ => (0 : Nat)) 2 one_item_queue ∧
    ((0 ≤ one_item_queue.head ∧ one_item_queue.head < 2) ∧
      (0 ≤ one_item_queue.tail ∧ one_item_queue.tail < 2) ∧
      one_item_queue.tail = (one_item_queue.head + one_item_queue.size) % 2 ∧
      (one_item_queue.array.length : Int) = 2 ∧
      (one_item_queue.size < one_item_queue.capacity → ∀ data, ∃ q1,
        enqueue (fun _ => none) one_item_queue data = .done q1 ∧
        contents q1 = contents one_item_queue ++ [data]) ∧
      (0 < one_item_queue.size → ∃ q1 data,
        dequeue (fun _ => none) one_item_queue = .done (q1, data) ∧
        contents one_item_queue = data :: contents q1) ∧
      (one_item_queue.size < one_item_queue.capacity → ∀ i : Int, 0 ≤ i →
        i < one_item_queue.size → (one_item_queue.head + i) % 2 ≠ one_item_queue.tail)) :=
  have hr : Reachable (fun _ => none) (fun _ => (0 : Nat)) 2 one_item_queue :=
    Reachable.enq (queue_init (fun _ => 0) 2) _ 5 Reachable.init (by decide) (by decide)
  ⟨by decide, hr, ring_buffer_invariant 2 (by decide) (fun _ => 0) (fun _ => none) _ hr⟩

/-! ## Theorems: worker -/

theorem worker_loop_counts {α : Type} (check_url : α → Int) (rest : List (Option α))
    (urls : List α) :
    ∀ r : UrlStatus, worker_loop check_url r (urls.map some ++ none :: rest) =
      .done ({ ok := r.ok + urls.countP (fun u => decide (check_url u = URL_OK))
               error := r.error + urls.countP (fun u => decide (check_url u = URL_ERROR))
               unknown := r.unknown + urls.countP (fun u =>
                 decide (check_url u ≠ URL_OK ∧ check_url u ≠ URL_ERROR)) }, urls, rest) := by
  induction urls with
  | nil => intro r; simp [worker_loop]
  | cons u urls ih =>
    intro r
    have e : worker_loop check_url r ((u :: urls).map some ++ none :: rest) =
        match worker_loop check_url (count_status r (check_url u))
            (urls.map some ++ none :: rest) with
        | .done (r, checked, rest1) => .done (r, u :: checked, rest1)
        | .blocked => .blocked
        | .fault => .fault := rfl
    rw [e, ih]
    simp only [List.countP_cons]
    have hne : URL_OK ≠ URL_ERROR := by decide
    by_cases h1 : check_url u = URL_OK
    · have h2 : check_url u ≠ URL_ERROR := by rw [h1]; exact hne
      have hc : count_status r (check_url u) = { r with ok := r.ok + 1 } := by
        simp only [count_status, if_pos h1]
      have d1 : decide (check_url u = URL_OK) = true := decide_eq_true h1
      have d2 : decide (check_url u = URL_ERROR) = false := decide_eq_false h2
      have d3 : decide (check_url u ≠ URL_OK ∧ check_url u ≠ URL_ERROR) = false :=
        decide_eq_false (fun h => h.1 h1)
      rw [hc, d1, d2, d3]
      simp only [if_true, Bool.false_eq_true, if_false, Nat.add_zero, Nat.cast_add, Nat.cast_one]
      congr 3
      ring
    · by_cases h2 : check_url u = URL_ERROR
      · have hc : count_status r (check_url u) = { r with error := r.error + 1 } := by
          simp only [count_status, if_neg h1, if_pos h2]
        have d1 : decide (check_url u = URL_OK) = false := decide_eq_false h1
        have d2 : decide (check_url u = URL_ERROR) = true := decide_eq_true h2
        have d3 : decide (check_url u ≠ URL_OK ∧ check_url u ≠ URL_ERROR) = false :=
          decide_eq_false (fun h => h.2 h2)
        rw [hc, d1, d2, d3]
        simp only [if_true, Bool.false_eq_true, if_false, Nat.add_zero, Nat.cast_add, Nat.cast_one]
        congr 3
        ring
      · have hc : count_status r (check_url u) = { r with unknown := r.unknown + 1 } := by
          simp only [count_status, if_neg h1, if_neg h2]
        have d1 : decide (check_url u = URL_OK) = false := decide_eq_false h1
        have d2 : decide (check_url u = URL_ERROR) = false := decide_eq_false h2
        have d3 : decide (check_url u ≠ URL_OK ∧ check_url u ≠ URL_ERROR) = true :=
          decide_eq_true ⟨h1, h2⟩
        rw [hc, d1, d2, d3]
        simp only [if_true, Bool.false_eq_true, if_false, Nat.add_zero, Nat.cast_add, Nat.cast_one]
        congr 3
        ring

theorem countP_partition {α : Type} (p q : α → Prop) [DecidablePred p] [DecidablePred q]
    (hpq : ∀ a, p a → ¬ q a) (l : List α) :
    l.countP (fun a => decide (p a)) + l.countP (fun a => decide (q a)) +
      l.countP (fun a => decide (¬ p a ∧ ¬ q a)) = l.length := by
  induction l with
  | nil => rfl
  | cons a l ih =>
    simp only [List.countP_cons, List.length_cons]
    by_cases h1 : p a
    · have d1 : decide (p a) = true := decide_eq_true h1
      have d2 : decide (q a) = false := decide_eq_false (hpq a h1)
      have d3 : decide (¬ p a ∧ ¬ q a) = false := decide_eq_false (fun h => h.1 h1)
      rw [d1, d2, d3]
      simp only [if_true, Bool.false_eq_true, if_false]
      omega
    · by_cases h2 : q a
      · have d1 : decide (p a) = false := decide_eq_false h1
        have d2 : decide (q a) = true := decide_eq_true h2
        have d3 : decide (¬ p a ∧ ¬ q a) = false := decide_eq_false (fun h => h.2 h2)
        rw [d1, d2, d3]
        simp only [if_true, Bool.false_eq_true, if_false]
        omega
      · have d1 : decide (p a) = false := decide_eq_false h1
        have d2 : decide (q a) = false := decide_eq_false h2
        have d3 : decide (¬ p a ∧ ¬ q a) = true := decide_eq_true ⟨h1, h2⟩
        rw [d1, d2, d3]
        simp only [if_true, Bool.false_eq_true, if_false]
        omega

theorem worker_loop_no_sentinel {α : Type} (check_url : α → Int) (urls : List α) :
    ∀ r : UrlStatus, worker_loop check_url r (urls.map some) = .blocked := by
  induction urls with
  | nil => intro r; rfl
  | cons u urls ih => intro r; simp only [List.map_cons, worker_loop, ih]

/-- C5: for every checker and every sequence of items delivered to a worker, made of
URLs, a first sentinel and anything after it, the worker calls `check_url` on exactly
the URLs before the first sentinel, once each and in order, takes nothing after that
sentinel, and puts one record on the result queue: `ok` counts the URLs checked
`URL_OK`, `error` those checked `URL_ERROR`, `unknown` all others, and the three
add up to the number of URLs.  Without a sentinel the worker puts no record (its
next `dequeue` does not return). -/
theorem worker_counts_until_first_sentinel {α : Type} (check_url : α → Int) (urls : List α)
    (rest : List (Option α)) :
    worker check_url (urls.map some ++ none :: rest) =
      .done { checked := urls
              published := [{ ok := urls.countP (fun u => decide (check_url u = URL_OK))
                              error := urls.countP (fun u => decide (check_url u = URL_ERROR))
                              unknown := urls.countP (fun u =>
                                decide (check_url u ≠ URL_OK ∧ check_url u ≠ URL_ERROR)) }]
              remaining := rest } ∧
    ((urls.countP (fun u => decide (check_url u = URL_OK)) : Int) +
      urls.countP (fun u => decide (check_url u = URL_ERROR)) +
      urls.countP (fun u => decide (check_url u ≠ URL_OK ∧ check_url u ≠ URL_ERROR)) =
        urls.length) ∧
    worker check_url (urls.map some) = .blocked := by
  refine ⟨?_, ?_, ?_⟩
  · simp [worker, worker_loop_counts]
  · have := countP_partition (fun u => check_url u = URL_OK) (fun u => check_url u = URL_ERROR)
      (fun a h => by show ¬ (check_url a = URL_ERROR); rw [show check_url a = URL_OK from h]; decide) urls
    exact_mod_cast this
  · simp [worker, worker_loop_no_sentinel]

/-! ## Theorems: collector -/

theorem collector_puts_eq {α : Type} (n : Nat) :
    (collector_puts n : List (CollectorCall α)) = List.replicate n (.put_url none) := by
  induction n with
  | zero => rfl
  | succ n ih => simp [collector_puts, ih, List.replicate_succ]

theorem collector_takes_all {α : Type} (more : List UrlStatus) (rs : List UrlStatus) :
    ∀ results : UrlStatus,
      (collector_takes rs.length results (rs ++ more) :
          Outcome (UrlStatus × List (CollectorCall α) × List UrlStatus)) =
        .done (add_status results (sum_status rs), rs.map .take_result, more) := by
  induction rs with
  | nil =>
    intro results
    simp [collector_takes, add_status, sum_status]
  | cons r rs ih =>
    intro results
    have e : (collector_takes (r :: rs).length results ((r :: rs) ++ more) :
          Outcome (UrlStatus × List (CollectorCall α) × List UrlStatus)) =
        match collector_takes rs.length (add_status results r) (rs ++ more) with
        | .done (total, calls, rest) => .done (total, .take_result r :: calls, rest)
        | .blocked => .blocked
        | .fault => .fault := rfl
    rw [e, ih]
    have : add_status (add_status results r) (sum_status rs) =
        add_status results (sum_status (r :: rs)) := by
      simp only [add_status, sum_status, List.map_cons, List.sum_cons, UrlStatus.mk.injEq]
      refine ⟨by ring, by ring, by ring⟩
    simp only [this, List.map_cons]

theorem sum_status_perm (rs rs1 : List UrlStatus) (h : rs.Perm rs1) :
    sum_status rs = sum_status rs1 := by
  simp only [sum_status, (h.map _).sum_eq]

theorem sum_status_tally {α : Type} (check_url : α → Int) (parts : List (List α)) :
    sum_status (parts.map (tally check_url)) = tally check_url parts.flatten := by
  induction parts with
  | nil => rfl
  | cons p parts ih =>
    have e : sum_status ((p :: parts).map (tally check_url)) =
        add_status (tally check_url p) (sum_status (parts.map (tally check_url))) := by
      simp only [sum_status, add_status, List.map_cons, List.sum_cons]
    rw [e, ih]
    simp only [add_status, tally, List.flatten_cons, List.countP_append, Nat.cast_add]

theorem tally_perm {α : Type} (check_url : α → Int) (l1 l2 : List α) (h : l1.Perm l2) :
    tally check_url l1 = tally check_url l2 := by
  simp only [tally, h.countP_eq]

/-- What holds when the URL queue delivers every URL to exactly one worker and one
sentinel to each worker: whatever the distribution `parts` of the URLs over the
workers and whatever the order in which the workers' records arrive, every worker
publishes the counts of its own URLs and the collector prints the counts over all
the URLs. -/
theorem aggregate_of_distribution {α : Type} (check_url : α → Int) (urls : List α)
    (parts : List (List α)) (arrival : List UrlStatus)
    (hparts : parts.flatten.Perm urls)
    (harr : arrival.Perm (parts.map (tally check_url))) :
    (∀ p ∈ parts, worker check_url (p.map some ++ [none]) =
      .done { checked := p, published := [tally check_url p], remaining := [] }) ∧
    (collector (parts.length : Int) arrival : Outcome (CollectorRun α)) =
      .done { calls := List.replicate parts.length (.put_url none) ++
                arrival.map .take_result
              printed := tally check_url urls
              remaining := [] } := by
  constructor
  · intro p _
    simp [worker, worker_loop_counts, tally]
  · have hlen : arrival.length = parts.length := by
      rw [harr.length_eq, List.length_map]
    have h0 : ∀ r : UrlStatus, add_status { ok := 0, error := 0, unknown := 0 } r = r := by
      intro r; simp [add_status]
    have ht := @collector_takes_all α [] arrival { ok := 0, error := 0, unknown := 0 }
    rw [List.append_nil, hlen, h0, sum_status_perm _ _ harr, sum_status_tally,
      tally_perm _ _ _ hparts] at ht
    simp only [collector, Int.toNat_ofNat, ht, collector_puts_eq]

/-! ## Theorems: file reader -/

/-- Sanity check of the thread model: without a wait, two workers and the URLs
`0, 1, 2` checked `URL_OK`, `URL_ERROR`, `URL_UNKNOWN` give the printed aggregate
`1 OK, 1 Error, 1 Unknown` and leave the URL queue empty. -/
theorem orderly_run_counts_every_url :
    (run stub_checker
        (parallel_checker (fun _ => none) (fun _ => ⟨0, 0, 0⟩) [0, 1, 2] 2) orderly).map
      (fun s => (s.printed, s.url_queue.size, s.workers.map (fun w => w.pc), s.collector.pc)) =
    some (some ⟨1, 1, 1⟩, 0, [.returned, .returned], .returned) := by
  decide

/-- C7 (the code at the failing input): file with the URLs `0, 1, 2`, checked
`URL_OK`, `URL_ERROR`, `URL_UNKNOWN`, 2 workers, fresh blocks zero-filled.  After
the schedule `stolen_wakeup` worker 0 has run the critical section of `dequeue` on
the empty URL queue: `size` is `-1`, `head` has passed `tail`, and what it took is
the content of cell 1, never written (`NULL`), so it leaves its loop with all
counters zero.  At the end all threads have returned and the collector has printed
`1 OK, 0 Error, 1 Unknown`: URL `1` still sits in cell 1 and was never given to a
worker. -/
theorem stolen_wakeup_loses_url :
    (run stub_checker
        (parallel_checker (fun _ => none) (fun _ => ⟨0, 0, 0⟩) [0, 1, 2] 2)
        stolen_wakeup).map
      (fun s => (s.url_queue.size, s.url_queue.head, s.url_queue.tail)) = some (-1, 2, 1) ∧
    (run stub_checker
        (parallel_checker (fun _ => none) (fun _ => ⟨0, 0, 0⟩) [0, 1, 2] 2)
        stolen_wakeup).map
      (fun s => s.workers.map (fun w => (w.pc, w.results))) =
      some [(.enqueue_results, ⟨0, 0, 0⟩), (.dequeue_url, ⟨1, 0, 0⟩)] ∧
    (run stub_checker
        (parallel_checker (fun _ => none) (fun _ => ⟨0, 0, 0⟩) [0, 1, 2] 2)
        stolen_wakeup_to_end).map
      (fun s => (s.workers.map (fun w => w.pc), s.reader.returned, s.collector.pc)) =
      some ([.returned, .returned], true, .returned) ∧
    (run stub_checker
        (parallel_checker (fun _ => none) (fun _ => ⟨0, 0, 0⟩) [0, 1, 2] 2)
        stolen_wakeup_to_end).map
      (fun s => (s.printed, s.url_queue.array[1]?)) =
      some (some ⟨1, 0, 1⟩, some (some 1)) := by
  refine ⟨by decide, by decide, by decide, by decide⟩

/-- C8 (the code at the failing input): empty file, 2 workers, the fresh block of the
URL queue holding a non-`NULL` value in cell 1.  After the schedule `stolen_sentinel`
worker 1 has taken the first sentinel and worker 0 has run the critical section of
`dequeue` on the empty queue: `size` is `-1` and what it took, and counted, is the
content of the never-written cell 1.  Continued to the end: the second sentinel
sits in cell 1 behind `head` with `size = 0`, worker 0 is blocked in `dequeue` for
ever, the collector has received one record out of two and is blocked as well,
nothing has been printed and no thread can run. -/
theorem stolen_sentinel_blocks_worker_and_collector :
    (run (fun _ => URL_UNKNOWN)
        (parallel_checker (fun _ => some (99 : Nat)) (fun _ => ⟨0, 0, 0⟩) [] 2)
        stolen_sentinel).map
      (fun s => (s.url_queue.size, s.workers.map (fun w => (w.pc, w.results)))) =
      some (-1, [(.dequeue_url, ⟨0, 0, 1⟩), (.enqueue_results, ⟨0, 0, 0⟩)]) ∧
    (run (fun _ => URL_UNKNOWN)
        (parallel_checker (fun _ => some (99 : Nat)) (fun _ => ⟨0, 0, 0⟩) [] 2)
        stolen_sentinel_to_end).map
      (fun s => s.workers.map (fun w => (w.pc, w.phase))) =
      some [(.dequeue_url, .waiting), (.returned, .running)] ∧
    (run (fun _ => URL_UNKNOWN)
        (parallel_checker (fun _ => some (99 : Nat)) (fun _ => ⟨0, 0, 0⟩) [] 2)
        stolen_sentinel_to_end).map
      (fun s => (s.collector.pc, s.collector.phase, s.collector.i, s.printed)) =
      some (.dequeue_results, .waiting, 1, none) ∧
    (run (fun _ => URL_UNKNOWN)
        (parallel_checker (fun _ => some (99 : Nat)) (fun _ => ⟨0, 0, 0⟩) [] 2)
        stolen_sentinel_to_end).map
      (fun s => (s.url_queue.size, s.url_queue.head, s.url_queue.tail)) = some (0, 2, 2) ∧
    (run (fun _ => URL_UNKNOWN)
        (parallel_checker (fun _ => some (99 : Nat)) (fun _ => ⟨0, 0, 0⟩) [] 2)
        stolen_sentinel_to_end).map
      (fun s => (s.url_queue.array[1]?, no_thread_can_run (fun _ => URL_UNKNOWN) s)) =
      some (some none, true) := by
  refine ⟨by decide, by decide, by decide, by decide, by decide⟩

end UrlChecker
